import Mathlib

/-!
Verification development for the homekit-logger ingestion-and-storage
pipeline (src/homekit_logger.py).

The Python source is shallowly embedded: pure helpers become Lean
functions, the SQLite-backed storage becomes explicit state passing on a
`Storage` record, Python floats are modelled as exact rationals (every
value produced by the measurement path is a finite decimal), and the
regex `^([-+]?\d*\.?\d+)` used by `parse_measurement` is embedded by its
greedy match semantics (`extractNum` below).
-/

namespace HomekitLogger

/-! ### Measurement values and Python string coercion -/

/-- A raw value arriving in a request payload: Python `None`, a string,
or an integer (the already-numeric case of `parse_measurement`). -/
inductive RawValue where
  | vnone : RawValue
  | vstr (s : String) : RawValue
  | vint (n : Int) : RawValue
deriving DecidableEq, Repr

/-- Whitespace characters removed by Python `str.strip()` (ASCII part). -/
def isPyWs (c : Char) : Bool :=
  c == ' ' || c == '\t' || c == '\n' || c == '\r' || c == '\x0b' || c == '\x0c'

/-- Python `str.strip()`: drop leading and trailing whitespace. -/
def pyStrip (cs : List Char) : List Char :=
  ((cs.dropWhile isPyWs).reverse.dropWhile isPyWs).reverse

/-- Python `str(value)` for the payload values we model; `None` has no
string form because `parse_measurement` returns before coercing it. -/
def rawToChars : RawValue → Option (List Char)
  | .vnone => none
  | .vstr s => some s.data
  | .vint n => some (toString n).data

/-! ### The numeric-prefix regex `^([-+]?\d*\.?\d+)`

`numTok` decides full-string membership in the regex language (sign,
digits, at most one decimal point, ending in at least one digit);
`extractNum` is the greedy leading match performed by `re.match`. -/

/-- Full-string match of the regex body `\d*\.?\d+`. -/
def numBody (cs : List Char) : Bool :=
  match cs.dropWhile Char.isDigit with
  | [] => !cs.isEmpty
  | '.' :: rest => !rest.isEmpty && rest.all Char.isDigit
  | _ => false

/-- Is the character a sign accepted by `[-+]?`. -/
def isSign (c : Char) : Bool := c == '-' || c == '+'

/-- Full-string match of `[-+]?\d*\.?\d+`. -/
def numTok (cs : List Char) : Bool :=
  match cs with
  | c :: rest => if isSign c then numBody rest else numBody cs
  | [] => false

/-- Greedy match of `\d*\.?\d+` at the start of the input: the matched
group, or `none` when the regex does not match. -/
def extractBody (cs : List Char) : Option (List Char) :=
  let d1 := cs.takeWhile Char.isDigit
  match cs.dropWhile Char.isDigit with
  | '.' :: r2 =>
    let d2 := r2.takeWhile Char.isDigit
    if d2.isEmpty then (if d1.isEmpty then none else some d1)
    else some (d1 ++ '.' :: d2)
  | _ => if d1.isEmpty then none else some d1

/-- Greedy match of `^([-+]?\d*\.?\d+)`: the group captured by
`MEASUREMENT_PATTERN.match(value_str)` in the source. -/
def extractNum (cs : List Char) : Option (List Char) :=
  match cs with
  | c :: rest =>
    if isSign c then (extractBody rest).map (fun b => c :: b)
    else extractBody cs
  | [] => none

/-! ### Float conversion of a matched token (exact, as a rational) -/

/-- Value of a (decimal) digit string, most significant first. -/
def digitsToNat (ds : List Char) : Nat :=
  ds.foldl (fun a c => a * 10 + (c.toNat - 48)) 0

/-- Python `float` applied to a string matching `\d*\.?\d+`, exactly:
integer part and fractional part over a power of ten. Negated when
`sgn` is true. -/
def bodyToRat (sgn : Bool) (b : List Char) : ℚ :=
  let ip := b.takeWhile Char.isDigit
  let fp := match b.dropWhile Char.isDigit with
    | '.' :: r2 => r2
    | _ => []
  let n : Int := (digitsToNat ip * 10 ^ fp.length + digitsToNat fp : Nat)
  mkRat (if sgn then -n else n) (10 ^ fp.length)

/-- Python `float` applied to a string matching `[-+]?\d*\.?\d+`. -/
def tokenToRat (t : List Char) : ℚ :=
  match t with
  | '-' :: rest => bodyToRat true rest
  | '+' :: rest => bodyToRat false rest
  | _ => bodyToRat false t

/-- Embedding of `parse_measurement` (src/homekit_logger.py lines
215-248): `None` gives `none`; otherwise coerce to text, strip
whitespace, reject the empty string, and convert the greedy numeric
prefix match, if any, to a rational. The `float` conversion of a
matched group never raises, so the `except ValueError` branch of the
source is unreachable and the model is total on matches. -/
def parse_measurement (v : RawValue) : Option ℚ :=
  match rawToChars v with
  | none => none
  | some cs =>
    let s := pyStrip cs
    if s.isEmpty then none
    else
      match extractNum s with
      | some t => some (tokenToRat t)
      | none => none

example : parse_measurement (.vstr "18.4 °C") = some (18.4 : ℚ) := by
  have h : (18.4 : ℚ) = mkRat 184 10 := by norm_num [Rat.mkRat_eq_div]
  rw [h]; decide
example : parse_measurement (.vstr "65 %") = some (65 : ℚ) := by decide
example : parse_measurement (.vstr "") = none := by decide
example : parse_measurement .vnone = none := by decide
example : parse_measurement (.vstr "-3.2") = some (-3.2 : ℚ) := by
  have h : (-3.2 : ℚ) = mkRat (-32) 10 := by norm_num [Rat.mkRat_eq_div]
  rw [h]; decide
example : parse_measurement (.vstr "abc") = none := by decide
example : parse_measurement (.vint 42) = some (42 : ℚ) := by decide

/-! ### Sensor registry -/

/-- One entry of the `SENSORS` configuration list. -/
structure Sensor where
  field : String
  name : String
  unit : String
deriving DecidableEq, Repr

/-- The `SENSORS` list of src/homekit_logger.py lines 41-67. -/
def SENSORS : List Sensor :=
  [ ⟨"outside_temp", "Outside Temperature", "°C"⟩,
    ⟨"outside_humidity", "Outside Humidity", "%"⟩,
    ⟨"master_bedroom_temp", "Master Bedroom Temperature", "°C"⟩,
    ⟨"master_bedroom_humidity", "Master Bedroom Humidity", "%"⟩,
    ⟨"library_temp", "Library Temperature", "°C"⟩,
    ⟨"library_humidity", "Library Humidity", "%"⟩,
    ⟨"kitchen_temp", "Kitchen Temperature", "°C"⟩,
    ⟨"kitchen_humidity", "Kitchen Humidity", "%"⟩,
    ⟨"living_room_temp", "Living Room Temperature", "°C"⟩,
    ⟨"living_room_humidity", "Living Room Humidity", "%"⟩,
    ⟨"co2_level", "CO2 Level", "ppm"⟩ ]

/-! ### Requests and access control -/

/-- The parts of a Flask request the pipeline reads: the `X-API-Key`
header, the `api_key` query parameter, and the payload mapping (form
fields or a JSON object). -/
structure Request where
  headerApiKey : Option String
  queryApiKey : Option String
  payload : List (String × RawValue)
deriving DecidableEq, Repr

/-- Python `request.headers.get("X-API-Key") or request.args.get("api_key")`:
`or` falls through on a falsy left operand, so a missing or EMPTY header
defers to the query parameter. -/
def providedKey (req : Request) : Option String :=
  match req.headerApiKey with
  | some h => if h = "" then req.queryApiKey else some h
  | none => req.queryApiKey

/-- A structured JSON error response together with its HTTP status. -/
structure ErrorResp where
  code : Nat
  message : String
deriving DecidableEq, Repr

/-- Embedding of `check_api_key` (src/homekit_logger.py lines 251-262):
`none` means the request is allowed; `some e` is the 401 response. -/
def check_api_key (apiKey : Option String) (req : Request) : Option ErrorResp :=
  match apiKey with
  | none => none
  | some k =>
    if providedKey req = some k then none
    else some ⟨401, "Unauthorized"⟩

/-! ### Storage -/

/-- One row of the `readings` table. -/
structure Reading where
  id : Nat
  timestamp : Nat
  values : List (String × Option ℚ)
deriving DecidableEq, Repr

/-- The mutable storage state: the rows of the `readings` table and the
next rowid SQLite `AUTOINCREMENT` will assign. -/
structure Storage where
  rows : List Reading
  nextId : Nat
deriving DecidableEq, Repr

/-- Embedding of the `INSERT INTO readings ...` statement: a new row is
appended with the auto-assigned id (returned as `cursor.lastrowid`) and
the `CURRENT_TIMESTAMP` default `now`. -/
def Storage.insert (st : Storage) (now : Nat) (vals : List (String × Option ℚ)) :
    Nat × Storage :=
  (st.nextId, ⟨st.rows ++ [⟨st.nextId, now, vals⟩], st.nextId + 1⟩)

/-! ### Ingestion endpoint -/

/-- Outcome of `log_reading`: the success JSON or an error JSON with its
HTTP status. -/
inductive LogResult where
  | success (id : Nat) (data : List (String × Option ℚ)) : LogResult
  | failure (code : Nat) (message : String) : LogResult
deriving DecidableEq, Repr

/-- The parsing loop of `log_reading` (lines 292-296): for each
configured sensor whose field occurs in the payload, parse the payload
value; other sensors are skipped. -/
def parsedData (registry : List Sensor) (payload : List (String × RawValue)) :
    List (String × Option ℚ) :=
  registry.filterMap (fun s =>
    match payload.lookup s.field with
    | some v => some (s.field, parse_measurement v)
    | none => none)

/-- Embedding of the `/log` handler `log_reading` (lines 265-323):
authentication, the empty-payload check, per-field parsing, the
no-recognized-field check, and the insert. The returned `Storage` is
the post-state. -/
def log_reading (apiKey : Option String) (registry : List Sensor)
    (req : Request) (now : Nat) (st : Storage) : LogResult × Storage :=
  match check_api_key apiKey req with
  | some e => (.failure e.code e.message, st)
  | none =>
    if req.payload.isEmpty then (.failure 400 "No data received", st)
    else
      let parsed := parsedData registry req.payload
      if parsed.isEmpty then (.failure 400 "No valid sensor data found", st)
      else
        let r := Storage.insert st now parsed
        (.success r.1 parsed, r.2)

/-! ### Query endpoint -/

/-- The `LIMIT` clamp of `get_readings` (lines 342-343): the parsed
`limit` query parameter (or its default 100) is capped at 10000 and
floored at 1. -/
def clampLimit (limit : Option Int) : Int :=
  max 1 (min (limit.getD 100) 10000)

/-- The `SELECT * FROM readings ORDER BY timestamp DESC LIMIT ?` of
`get_readings` (lines 345-350): rows sorted newest first, truncated. -/
def queryReadings (st : Storage) (limit : Option Int) : List Reading :=
  (st.rows.mergeSort (fun a b => decide (b.timestamp ≤ a.timestamp))).take
    (clampLimit limit).toNat

/-! ### Schema initialization and migration -/

/-- SQLite column types used by the `readings` table. -/
inductive ColType where
  | integer : ColType
  | datetime : ColType
  | real : ColType
deriving DecidableEq, Repr

/-- The columns of the `CREATE TABLE readings` statement (lines
170-179): id, timestamp, then one REAL column per configured sensor. -/
def createColumns (registry : List Sensor) : List (String × ColType) :=
  ("id", .integer) :: ("timestamp", .datetime) ::
    registry.map (fun s => (s.field, .real))

/-- One `ALTER TABLE readings ADD COLUMN "f" REAL` (line 189): SQLite
rejects a column name that is already present. -/
def addColumn (cols : List (String × ColType)) (f : String) :
    Except String (List (String × ColType)) :=
  if f ∈ cols.map Prod.fst then .error "duplicate column name"
  else .ok (cols ++ [(f, .real)])

/-- Embedding of `init_db` (lines 156-212) acting on the table schema:
`none` means the `readings` table does not exist yet and is created;
otherwise every registry field missing from the introspected column set
is added via `ALTER TABLE`. An `Except.error` models a fatal
`sqlite3.Error` during initialization. -/
def init_db (registry : List Sensor) (schema : Option (List (String × ColType))) :
    Except String (List (String × ColType)) :=
  match schema with
  | none =>
    let cols := createColumns registry
    if (cols.map Prod.fst).Nodup then .ok cols
    else .error "duplicate column name"
  | some cols =>
    let existing := cols.map Prod.fst
    let missing := (registry.map (fun s => s.field)).filter
      (fun f => decide (f ∉ existing))
    missing.foldlM addColumn cols

/-! ### Request-boundary error handling -/

/-- A Python exception raised while handling a request: a
`sqlite3.Error` or any other `Exception`. -/
inductive PyError where
  | sqliteError (msg : String) : PyError
  | otherError (msg : String) : PyError
deriving DecidableEq, Repr

/-- The try/except structure of `log_reading` (lines 281-330): the
handler body either returns a result or raises, and both `sqlite3.Error`
and the catch-all `except Exception` produce a 500 JSON response,
leaving storage as the body left it (`st` for a failure before commit). -/
def run_log_reading (body : Except PyError (LogResult × Storage)) (st : Storage) :
    LogResult × Storage :=
  match body with
  | .ok r => r
  | .error (.sqliteError _) => (.failure 500 "Database error", st)
  | .error (.otherError _) => (.failure 500 "Internal server error", st)

/-- Outcome of the `/readings` handler. -/
inductive ReadResult where
  | rows (rs : List Reading) : ReadResult
  | failure (code : Nat) (message : String) : ReadResult
deriving DecidableEq, Repr

/-- The try/except structure of `get_readings` (lines 341-357): only
`sqlite3.Error` is caught and turned into a 500 JSON response; any
other exception propagates out of the handler. -/
def run_get_readings (body : Except PyError (List Reading)) :
    Except PyError ReadResult :=
  match body with
  | .ok rs => .ok (.rows rs)
  | .error (.sqliteError _) => .ok (.failure 500 "Database error")
  | .error e => .error e

/-! ### Claim C5: monotonically increasing identifiers -/

/-- Claim C5: for every pair of successive insert calls on the same
store, the identifier returned by the later call is strictly greater
than the identifier returned by the earlier call. -/
theorem insert_ids_strictly_increasing (st : Storage) (t1 t2 : Nat)
    (v1 v2 : List (String × Option ℚ)) :
    (Storage.insert st t1 v1).1 < (Storage.insert (Storage.insert st t1 v1).2 t2 v2).1 := by
  simp [Storage.insert]

/-! ### Claim C8: access control -/

/-- Claim C8: with no token configured every request is allowed; with a
configured token, a request passes `check_api_key` exactly when the key
it effectively provides (header, or query parameter when the header is
absent) equals the configured token, and otherwise `log_reading`
replies 401 Unauthorized without touching storage. -/
theorem check_api_key_spec (k : String) (registry : List Sensor)
    (req : Request) (now : Nat) (st : Storage) :
    check_api_key none req = none ∧
    (check_api_key (some k) req = none ↔ providedKey req = some k) ∧
    (providedKey req ≠ some k →
      log_reading (some k) registry req now st = (.failure 401 "Unauthorized", st)) := by
  refine ⟨rfl, ?_, ?_⟩
  · unfold check_api_key
    by_cases h : providedKey req = some k <;> simp [h]
  · intro h
    simp [log_reading, check_api_key, h]

/-- Witness for C8 at concrete inputs: a request carrying the wrong
query key against a configured token is rejected with 401 and the
store is untouched. -/
theorem check_api_key_spec_witness :
    log_reading (some "secret") SENSORS ⟨none, some "wrong", []⟩ 0 ⟨[], 1⟩ =
      (.failure 401 "Unauthorized", ⟨[], 1⟩) :=
  (check_api_key_spec "secret" SENSORS ⟨none, some "wrong", []⟩ 0 ⟨[], 1⟩).2.2 (by decide)

/-! ### Claim C10: empty header falls through to the query parameter -/

/-- Claim C10: when a token is configured and the `X-API-Key` header is
the empty string, `check_api_key` treats the header as absent and the
request is authorized exactly when the `api_key` query parameter equals
the configured token. -/
theorem empty_header_falls_through (k : String) (q : Option String)
    (p : List (String × RawValue)) :
    check_api_key (some k) ⟨some "", q, p⟩ = check_api_key (some k) ⟨none, q, p⟩ ∧
    (check_api_key (some k) ⟨some "", q, p⟩ = none ↔ q = some k) := by
  constructor
  · simp [check_api_key, providedKey]
  · unfold check_api_key providedKey
    by_cases h : q = some k <;> simp [h]

/-- Witness for C10 at concrete inputs: with token "secret", an empty
header plus the matching query parameter is allowed. -/
theorem empty_header_falls_through_witness :
    check_api_key (some "secret") ⟨some "", some "secret", []⟩ = none := by
  have h := (empty_header_falls_through "secret" (some "secret") []).2
  exact h.mpr rfl

/-! ### Claim C4: query limit clamping and ordering -/

/-- Claim C4: `queryReadings` returns at most `min limit 10000` rows for
a positive requested limit, always in descending timestamp order; a
missing limit behaves as 100 and a non-positive limit behaves as 1. -/
theorem queryReadings_spec (st : Storage) (l : Int) (hl : 1 ≤ l) :
    (queryReadings st (some l)).length ≤ min l.toNat 10000 ∧
    (∀ lim : Option Int,
      List.Pairwise (fun a b => b.timestamp ≤ a.timestamp) (queryReadings st lim)) ∧
    queryReadings st none = queryReadings st (some 100) ∧
    (∀ m : Int, m ≤ 0 → queryReadings st (some m) = queryReadings st (some 1)) := by
  refine ⟨?_, ?_, ?_, ?_⟩
  · have h1 : (clampLimit (some l)).toNat = min l.toNat 10000 := by
      simp only [clampLimit, Option.getD_some]
      omega
    unfold queryReadings
    rw [h1]
    exact le_trans (List.length_take_le _ _) le_rfl
  · intro lim
    have htrans : ∀ a b c : Reading,
        (fun a b : Reading => decide (b.timestamp ≤ a.timestamp)) a b →
        (fun a b : Reading => decide (b.timestamp ≤ a.timestamp)) b c →
        (fun a b : Reading => decide (b.timestamp ≤ a.timestamp)) a c := by
      intro a b c hab hbc
      simp only [decide_eq_true_eq] at *
      omega
    have htotal : ∀ a b : Reading,
        ((fun a b : Reading => decide (b.timestamp ≤ a.timestamp)) a b ||
         (fun a b : Reading => decide (b.timestamp ≤ a.timestamp)) b a) := by
      intro a b
      simp only [Bool.or_eq_true, decide_eq_true_eq]
      omega
    have hs := @List.sorted_mergeSort Reading
      (fun a b : Reading => decide (b.timestamp ≤ a.timestamp)) htrans htotal st.rows
    have hs' : List.Pairwise (fun a b : Reading => b.timestamp ≤ a.timestamp)
        (st.rows.mergeSort (fun a b : Reading => decide (b.timestamp ≤ a.timestamp))) :=
      hs.imp (fun h => by simpa using h)
    exact hs'.take
  · rfl
  · intro m hm
    unfold queryReadings
    have h2 : (clampLimit (some m)).toNat = (clampLimit (some 1)).toNat := by
      simp only [clampLimit, Option.getD_some]
      omega
    rw [h2]

/-- Witness for C4 at concrete inputs: querying an empty store with
limit 5 returns at most 5 rows. -/
theorem queryReadings_spec_witness :
    (queryReadings ⟨[], 1⟩ (some 5)).length ≤ min (Int.toNat 5) 10000 :=
  (queryReadings_spec ⟨[], 1⟩ 5 (by decide)).1

/-! ### Claim C2: empty or unrecognized payloads are rejected -/

/-- Claim C2: for every authorized request, an empty payload, or one in
which no registry field occurs, makes `log_reading` reply with a 400
bad-request outcome and leave storage unchanged. -/
theorem log_reading_rejects_empty_or_unrecognized
    (apiKey : Option String) (registry : List Sensor) (req : Request)
    (now : Nat) (st : Storage)
    (hauth : check_api_key apiKey req = none)
    (h : req.payload = [] ∨ ∀ s ∈ registry, req.payload.lookup s.field = none) :
    ∃ msg, log_reading apiKey registry req now st = (.failure 400 msg, st) := by
  rcases h with hpay | hlk
  · exact ⟨"No data received", by simp [log_reading, hauth, hpay]⟩
  · by_cases hp : req.payload.isEmpty
    · exact ⟨"No data received", by simp [log_reading, hauth, hp]⟩
    · refine ⟨"No valid sensor data found", ?_⟩
      have hparsed : parsedData registry req.payload = [] := by
        rw [parsedData, List.filterMap_eq_nil_iff]
        intro s hs
        simp [hlk s hs]
      simp [log_reading, hauth, hp, hparsed]

/-- Witness for C2 at concrete inputs: a payload holding only an
unknown field is rejected with 400 and no row is inserted. -/
theorem log_reading_rejects_witness :
    ∃ msg, log_reading none SENSORS ⟨none, none, [("bogus_field", .vstr "1")]⟩ 0 ⟨[], 1⟩ =
      (.failure 400 msg, ⟨[], 1⟩) :=
  log_reading_rejects_empty_or_unrecognized none SENSORS
    ⟨none, none, [("bogus_field", .vstr "1")]⟩ 0 ⟨[], 1⟩ rfl (Or.inr (by decide))

/-! ### Claim C3: recognized fields are parsed, inserted, and echoed -/

/-- Claim C3: for every authorized payload containing at least one
registry field, `log_reading` parses exactly the registry fields present
in the payload, appends that parsed subset as one new row, and returns
success with the newly assigned id and the parsed values; a value that
fails to parse is carried as `none` rather than dropped. -/
theorem log_reading_inserts_parsed_subset
    (apiKey : Option String) (registry : List Sensor) (req : Request)
    (now : Nat) (st : Storage)
    (hauth : check_api_key apiKey req = none)
    (h : ∃ s ∈ registry, (req.payload.lookup s.field).isSome = true) :
    log_reading apiKey registry req now st =
      (.success st.nextId (parsedData registry req.payload),
       ⟨st.rows ++ [⟨st.nextId, now, parsedData registry req.payload⟩], st.nextId + 1⟩) ∧
    (∀ f : String, f ∈ (parsedData registry req.payload).map Prod.fst ↔
      ((∃ s ∈ registry, s.field = f) ∧ (req.payload.lookup f).isSome = true)) ∧
    (∀ p ∈ parsedData registry req.payload,
      ∃ v, req.payload.lookup p.1 = some v ∧ p.2 = parse_measurement v) := by
  obtain ⟨s0, hs0, hsome0⟩ := h
  obtain ⟨v0, hv0⟩ := Option.isSome_iff_exists.mp hsome0
  have hpayne : req.payload ≠ [] := by
    intro hnil
    rw [hnil] at hv0
    simp at hv0
  have hmem0 : (s0.field, parse_measurement v0) ∈ parsedData registry req.payload := by
    rw [parsedData, List.mem_filterMap]
    exact ⟨s0, hs0, by simp [hv0]⟩
  have hne : parsedData registry req.payload ≠ [] := List.ne_nil_of_mem hmem0
  refine ⟨?_, ?_, ?_⟩
  · simp [log_reading, hauth, List.isEmpty_eq_false.mpr hpayne,
      List.isEmpty_eq_false.mpr hne, Storage.insert]
  · intro f
    constructor
    · intro hf
      obtain ⟨p, hp, hpf⟩ := List.mem_map.mp hf
      obtain ⟨s, hs, hgs⟩ := List.mem_filterMap.mp hp
      cases hlk : req.payload.lookup s.field with
      | none => simp [hlk] at hgs
      | some v =>
        simp only [hlk] at hgs
        obtain ⟨hf1, hf2⟩ := Prod.mk.injEq .. ▸ Option.some.injEq .. ▸ hgs
        refine ⟨⟨s, hs, ?_⟩, ?_⟩
        · rw [← hpf]
          exact hf1
        · rw [← hpf, ← hf1, hlk]
          rfl
    · rintro ⟨⟨s, hs, hsf⟩, hsome⟩
      obtain ⟨v, hv⟩ := Option.isSome_iff_exists.mp hsome
      refine List.mem_map.mpr ⟨(s.field, parse_measurement v), ?_, by rw [hsf]⟩
      rw [parsedData, List.mem_filterMap]
      exact ⟨s, hs, by rw [hsf]; simp [hv]⟩
  · intro p hp
    obtain ⟨s, hs, hgs⟩ := List.mem_filterMap.mp hp
    cases hlk : req.payload.lookup s.field with
    | none => simp [hlk] at hgs
    | some v =>
      simp only [hlk, Option.some.injEq] at hgs
      refine ⟨v, ?_, ?_⟩
      · rw [← hgs, hlk]
      · rw [← hgs]

/-- Witness for C3 at concrete inputs: posting outside temperature and
humidity to a fresh store inserts one row with id 1 and echoes the
parsed subset. -/
theorem log_reading_inserts_witness :
    log_reading none SENSORS
        ⟨none, none, [("outside_temp", .vstr "18.5"), ("outside_humidity", .vstr "65")]⟩
        0 ⟨[], 1⟩ =
      (.success 1 (parsedData SENSORS
          [("outside_temp", .vstr "18.5"), ("outside_humidity", .vstr "65")]),
       ⟨[⟨1, 0, parsedData SENSORS
          [("outside_temp", .vstr "18.5"), ("outside_humidity", .vstr "65")]⟩], 2⟩) :=
  (log_reading_inserts_parsed_subset none SENSORS
    ⟨none, none, [("outside_temp", .vstr "18.5"), ("outside_humidity", .vstr "65")]⟩
    0 ⟨[], 1⟩ rfl (by decide)).1

/-! ### Schema-migration lemmas -/

/-- Folding `addColumn` over a list of field names only appends REAL
columns for those names, and on success every requested name is present
afterwards. -/
theorem foldlM_addColumn_spec (ms : List String) (cols cols' : List (String × ColType))
    (h : ms.foldlM addColumn cols = .ok cols') :
    ∃ added : List (String × ColType),
      cols' = cols ++ added ∧
      (∀ m ∈ ms, m ∈ cols'.map Prod.fst) ∧
      (∀ p ∈ added, p.2 = ColType.real ∧ p.1 ∈ ms ∧ p.1 ∉ cols.map Prod.fst) := by
  induction ms generalizing cols with
  | nil =>
    simp only [List.foldlM_nil] at h
    have hc : cols = cols' := by
      cases h
      rfl
    subst hc
    exact ⟨[], by simp, by simp, by simp⟩
  | cons m ms ih =>
    rw [List.foldlM_cons] at h
    by_cases hm : m ∈ cols.map Prod.fst
    · rw [show addColumn cols m = .error "duplicate column name" from by
        simp [addColumn, hm]] at h
      cases h
    · rw [show addColumn cols m = .ok (cols ++ [(m, ColType.real)]) from by
        simp [addColumn, hm]] at h
      replace h : ms.foldlM addColumn (cols ++ [(m, ColType.real)]) = .ok cols' := h
      obtain ⟨added1, hc1, hms1, hp1⟩ := ih _ h
      refine ⟨(m, ColType.real) :: added1, ?_, ?_, ?_⟩
      · rw [hc1, List.append_assoc]
        rfl
      · intro m' hm'
        rcases List.mem_cons.mp hm' with rfl | hmem
        · rw [hc1]
          refine List.mem_map.mpr ⟨(m', ColType.real), ?_, rfl⟩
          exact List.mem_append.mpr (Or.inl (List.mem_append.mpr (Or.inr (by simp))))
        · exact hms1 m' hmem
      · intro p hp
        rcases List.mem_cons.mp hp with rfl | hmem
        · exact ⟨rfl, by simp, hm⟩
        · obtain ⟨h1, h2, h3⟩ := hp1 p hmem
          refine ⟨h1, List.mem_cons_of_mem _ h2, ?_⟩
          intro hcon
          exact h3 (by rw [List.map_append]; exact List.mem_append.mpr (Or.inl hcon))

/-- On success, `init_db` leaves every registry field present among the
column names. -/
theorem init_db_fields_mem (registry : List Sensor)
    (schema : Option (List (String × ColType))) (cols' : List (String × ColType))
    (h : init_db registry schema = .ok cols') :
    ∀ s ∈ registry, s.field ∈ cols'.map Prod.fst := by
  cases schema with
  | none =>
    simp only [init_db] at h
    by_cases hnd : ((createColumns registry).map Prod.fst).Nodup
    · rw [if_pos hnd] at h
      cases h
      intro s hs
      simp only [createColumns, List.map_cons, List.map_map]
      exact List.mem_cons_of_mem _ (List.mem_cons_of_mem _
        (List.mem_map.mpr ⟨s, hs, rfl⟩))
    · rw [if_neg hnd] at h
      cases h
  | some cols =>
    simp only [init_db] at h
    obtain ⟨added, hc, hms, _⟩ := foldlM_addColumn_spec _ _ _ h
    intro s hs
    by_cases hin : s.field ∈ cols.map Prod.fst
    · rw [hc, List.map_append]
      exact List.mem_append.mpr (Or.inl hin)
    · refine hms s.field (List.mem_filter.mpr ⟨List.mem_map.mpr ⟨s, hs, rfl⟩, ?_⟩)
      simp [hin]

/-! ### Claim C6: migration keeps a superset of the registry -/

/-- Claim C6: after a successful `init_db`, the column name set contains
every registry field; against an existing table, `init_db` only appends
REAL columns for registry fields that were missing, so every existing
column (name and type) is preserved unchanged. -/
theorem init_db_superset_additive (registry : List Sensor)
    (schema : Option (List (String × ColType))) (cols' : List (String × ColType))
    (h : init_db registry schema = .ok cols') :
    (∀ s ∈ registry, s.field ∈ cols'.map Prod.fst) ∧
    (∀ cols, schema = some cols →
      ∃ added, cols' = cols ++ added ∧
        ∀ p ∈ added, p.2 = ColType.real ∧
          p.1 ∈ registry.map (fun s => s.field) ∧ p.1 ∉ cols.map Prod.fst) := by
  refine ⟨init_db_fields_mem _ _ _ h, ?_⟩
  intro cols hschema
  subst hschema
  simp only [init_db] at h
  obtain ⟨added, hc, _, hp⟩ := foldlM_addColumn_spec _ _ _ h
  refine ⟨added, hc, ?_⟩
  intro p hpmem
  obtain ⟨h1, h2, h3⟩ := hp p hpmem
  exact ⟨h1, List.mem_of_mem_filter h2, h3⟩

/-- Witness for C6 at concrete inputs: migrating a table that has a
stale column `old` against a registry with the single field `a` keeps
`old` and appends `a` as a REAL column. -/
theorem init_db_superset_additive_witness :
    ∃ added,
      ([("id", ColType.integer), ("timestamp", ColType.datetime), ("old", ColType.real),
        ("a", ColType.real)] : List (String × ColType)) =
      [("id", ColType.integer), ("timestamp", ColType.datetime), ("old", ColType.real)] ++ added ∧
      ∀ p ∈ added, p.2 = ColType.real ∧
        p.1 ∈ ([⟨"a", "A", "u"⟩] : List Sensor).map (fun s => s.field) ∧
        p.1 ∉ ([("id", ColType.integer), ("timestamp", ColType.datetime),
                ("old", ColType.real)] : List (String × ColType)).map Prod.fst :=
  (init_db_superset_additive [⟨"a", "A", "u"⟩]
    (some [("id", .integer), ("timestamp", .datetime), ("old", .real)])
    [("id", .integer), ("timestamp", .datetime), ("old", .real), ("a", .real)]
    (by rfl)).2
    [("id", .integer), ("timestamp", .datetime), ("old", .real)] rfl

/-! ### Claim C7: idempotent migration -/

/-- Claim C7: running `init_db` a second time with the same registry on
the column set produced by a successful first run changes nothing and
does not error. -/
theorem init_db_idempotent (registry : List Sensor)
    (schema : Option (List (String × ColType))) (cols : List (String × ColType))
    (h : init_db registry schema = .ok cols) :
    init_db registry (some cols) = .ok cols := by
  have hmem := init_db_fields_mem registry schema cols h
  simp only [init_db]
  have hmiss : (registry.map (fun s => s.field)).filter
      (fun f => decide (f ∉ cols.map Prod.fst)) = [] := by
    rw [List.filter_eq_nil_iff]
    intro f hf
    obtain ⟨s, hs, rfl⟩ := List.mem_map.mp hf
    simp [hmem s hs]
  rw [hmiss]
  rfl

/-- Witness for C7 at concrete inputs: creating the table for the
one-sensor registry and then rerunning `init_db` returns the same
column set. -/
theorem init_db_idempotent_witness :
    init_db [⟨"a", "A", "u"⟩]
      (some [("id", .integer), ("timestamp", .datetime), ("a", .real)]) =
    .ok [("id", .integer), ("timestamp", .datetime), ("a", .real)] :=
  init_db_idempotent [⟨"a", "A", "u"⟩] none
    [("id", .integer), ("timestamp", .datetime), ("a", .real)] (by rfl)

/-! ### Claim C9: error handling at the request boundary -/

/-- Claim C9 counterexample: the claim says every endpoint catches
unexpected internal errors at the request boundary and reports a
structured server-error outcome, but the `get_readings` handler catches
only `sqlite3.Error`: a non-database exception raised in its body
propagates out of the handler unchanged instead of being reported. -/
theorem get_readings_uncaught_error_cex :
    run_get_readings (.error (.otherError "boom")) = .error (.otherError "boom") := rfl

/-- Claim C9 amended: in `log_reading` every exception, database or
otherwise, is caught and reported as a generic 500 outcome with storage
left as it was; in `get_readings` this holds for database errors only. -/
theorem boundary_error_handling_amended :
    (∀ (e : PyError) (st : Storage),
      run_log_reading (.error e) st = (.failure 500 "Database error", st) ∨
      run_log_reading (.error e) st = (.failure 500 "Internal server error", st)) ∧
    (∀ m : String,
      run_get_readings (.error (.sqliteError m)) = .ok (.failure 500 "Database error")) := by
  constructor
  · intro e st
    cases e
    · exact Or.inl rfl
    · exact Or.inr rfl
  · intro m
    rfl

/-! ### Longest-match lemmas for the numeric-prefix regex -/

/-- A prefix of `cs` that satisfies `p` everywhere cannot be longer than
the maximal `p`-prefix computed by `takeWhile`. -/
theorem take_all_le_length_takeWhile {α : Type} (p : α → Bool) (cs : List α) :
    ∀ n, n ≤ cs.length → (cs.take n).all p = true → n ≤ (cs.takeWhile p).length := by
  induction cs with
  | nil =>
    intro n hn _
    simpa using hn
  | cons c cs ih =>
    intro n hn hall
    cases n with
    | zero => exact Nat.zero_le _
    | succ m =>
      rw [List.take_succ_cons] at hall
      simp only [List.all_cons, Bool.and_eq_true] at hall
      rw [List.takeWhile_cons]
      simp only [hall.1, if_true, List.length_cons]
      have := ih m (by simpa using hn) hall.2
      omega

/-- Conversely, any prefix of `cs` not longer than the maximal
`p`-prefix satisfies `p` everywhere. -/
theorem all_take_of_le_length_takeWhile {α : Type} (p : α → Bool) (cs : List α) :
    ∀ m, m ≤ (cs.takeWhile p).length → (cs.take m).all p = true := by
  induction cs with
  | nil =>
    intro m hm
    simp only [List.takeWhile_nil, List.length_nil, Nat.le_zero] at hm
    subst hm
    rfl
  | cons c cs ih =>
    intro m hm
    cases hp : p c with
    | false =>
      rw [List.takeWhile_cons, if_neg (by simp [hp])] at hm
      simp only [List.length_nil, Nat.le_zero] at hm
      subst hm
      rfl
    | true =>
      cases m with
      | zero => rfl
      | succ k =>
        rw [List.takeWhile_cons, if_pos (by simp [hp]), List.length_cons] at hm
        rw [List.take_succ_cons]
        simp only [List.all_cons, Bool.and_eq_true]
        exact ⟨hp, ih k (by omega)⟩

/-- The maximal `p`-prefix is literally a `take` of the list. -/
theorem takeWhile_eq_take_length {α : Type} (p : α → Bool) (cs : List α) :
    cs.takeWhile p = cs.take (cs.takeWhile p).length := by
  induction cs with
  | nil => rfl
  | cons c cs ih =>
    cases hp : p c with
    | false => rw [List.takeWhile_cons, if_neg (by simp [hp])]; rfl
    | true =>
      rw [List.takeWhile_cons, if_pos (by simp [hp]), List.length_cons,
        List.take_succ_cons, ← ih]

/-- A decimal digit is not a sign character. -/
theorem isSign_eq_false_of_isDigit (c : Char) (h : c.isDigit = true) :
    isSign c = false := by
  by_contra hc
  have hs : isSign c = true := by
    revert hc
    cases isSign c <;> simp
  unfold isSign at hs
  rw [Bool.or_eq_true] at hs
  rcases hs with hm | hp
  · rw [eq_of_beq hm] at h
    exact absurd h (by decide)
  · rw [eq_of_beq hp] at h
    exact absurd h (by decide)

/-- Characterization of the regex body `\d*\.?\d+` as a language: the
word is a nonempty digit string, or a digit string, a dot, and a
nonempty digit string. -/
theorem numBody_iff (cs : List Char) :
    numBody cs = true ↔
      (cs ≠ [] ∧ cs.all Char.isDigit = true) ∨
      (∃ e1 f2, cs = e1 ++ '.' :: f2 ∧ e1.all Char.isDigit = true ∧
        f2 ≠ [] ∧ f2.all Char.isDigit = true) := by
  have hdot : Char.isDigit '.' = false := by decide
  constructor
  · intro h
    unfold numBody at h
    split at h
    · next heq =>
      left
      have hcs : cs.takeWhile Char.isDigit = cs := by
        conv_rhs => rw [← List.takeWhile_append_dropWhile Char.isDigit cs]
        rw [heq, List.append_nil]
      refine ⟨by simpa using h, ?_⟩
      rw [← hcs]
      exact List.all_takeWhile
    · next rest heq =>
      right
      refine ⟨cs.takeWhile Char.isDigit, rest, ?_, List.all_takeWhile, ?_, ?_⟩
      · conv_lhs => rw [← List.takeWhile_append_dropWhile Char.isDigit cs]
        rw [heq]
      · simp only [Bool.and_eq_true] at h
        simpa using h.1
      · simp only [Bool.and_eq_true] at h
        exact h.2
    · cases h
  · intro h
    rcases h with ⟨hne, hall⟩ | ⟨e1, f2, rfl, he1, hf2ne, hf2⟩
    · have hdw : cs.dropWhile Char.isDigit = [] := by
        have h2 : (cs ++ []).dropWhile Char.isDigit = List.dropWhile Char.isDigit [] :=
          List.dropWhile_append_of_pos (by
            intro a ha
            exact List.all_eq_true.mp hall a ha)
        simpa using h2
      unfold numBody
      rw [hdw]
      simpa using hne
    · have hdw : (e1 ++ '.' :: f2).dropWhile Char.isDigit = '.' :: f2 := by
        rw [List.dropWhile_append_of_pos (by
          intro a ha
          exact List.all_eq_true.mp he1 a ha)]
        rw [List.dropWhile_cons, if_neg (by simp [hdot])]
      unfold numBody
      rw [hdw]
      simp [hf2, hf2ne]

/-- Reduction of `extractBody` when the input is all digits. -/
theorem extractBody_eq_nil (cs : List Char)
    (hdw : cs.dropWhile Char.isDigit = []) :
    extractBody cs =
      if (cs.takeWhile Char.isDigit).isEmpty then none
      else some (cs.takeWhile Char.isDigit) := by
  unfold extractBody
  rw [hdw]

/-- Reduction of `extractBody` when the first non-digit is a dot. -/
theorem extractBody_eq_dot (cs r2 : List Char)
    (hdw : cs.dropWhile Char.isDigit = '.' :: r2) :
    extractBody cs =
      if (r2.takeWhile Char.isDigit).isEmpty then
        (if (cs.takeWhile Char.isDigit).isEmpty then none
         else some (cs.takeWhile Char.isDigit))
      else some (cs.takeWhile Char.isDigit ++ '.' :: r2.takeWhile Char.isDigit) := by
  unfold extractBody
  rw [hdw]
  split
  · next r2' heq =>
    injection heq with h1 h2
    subst h2
    rfl
  · next x hne =>
    exact absurd rfl (hne r2)

/-- Reduction of `extractBody` when the first non-digit is not a dot. -/
theorem extractBody_eq_other (cs : List Char) (c : Char) (r2 : List Char)
    (hdw : cs.dropWhile Char.isDigit = c :: r2) (hc : c ≠ '.') :
    extractBody cs =
      if (cs.takeWhile Char.isDigit).isEmpty then none
      else some (cs.takeWhile Char.isDigit) := by
  unfold extractBody
  rw [hdw]
  split
  · next r2' heq =>
    injection heq with h1 h2
    exact absurd h1 hc
  · rfl

/-- The token produced by `extractBody` is a prefix of the input and a
word of the regex body language. -/
theorem extractBody_sound (cs b : List Char) (h : extractBody cs = some b) :
    (∃ r, b ++ r = cs) ∧ numBody b = true := by
  rcases hdw : cs.dropWhile Char.isDigit with _ | ⟨c, r2⟩
  · rw [extractBody_eq_nil cs hdw] at h
    by_cases hd1 : (cs.takeWhile Char.isDigit).isEmpty
    · rw [if_pos hd1] at h
      cases h
    · rw [if_neg hd1] at h
      obtain rfl := Option.some.inj h
      refine ⟨⟨cs.dropWhile Char.isDigit, List.takeWhile_append_dropWhile _ _⟩, ?_⟩
      rw [numBody_iff]
      exact Or.inl ⟨by simpa using hd1, List.all_takeWhile⟩
  · by_cases hc : c = '.'
    · subst hc
      rw [extractBody_eq_dot cs r2 hdw] at h
      by_cases hd2 : (r2.takeWhile Char.isDigit).isEmpty
      · rw [if_pos hd2] at h
        by_cases hd1 : (cs.takeWhile Char.isDigit).isEmpty
        · rw [if_pos hd1] at h
          cases h
        · rw [if_neg hd1] at h
          obtain rfl := Option.some.inj h
          refine ⟨⟨cs.dropWhile Char.isDigit, List.takeWhile_append_dropWhile _ _⟩, ?_⟩
          rw [numBody_iff]
          exact Or.inl ⟨by simpa using hd1, List.all_takeWhile⟩
      · rw [if_neg hd2] at h
        obtain rfl := Option.some.inj h
        constructor
        · refine ⟨r2.dropWhile Char.isDigit, ?_⟩
          rw [List.append_assoc, List.cons_append, List.takeWhile_append_dropWhile]
          rw [← hdw, List.takeWhile_append_dropWhile]
        · rw [numBody_iff]
          exact Or.inr ⟨_, _, rfl, List.all_takeWhile, by simpa using hd2,
            List.all_takeWhile⟩
    · rw [extractBody_eq_other cs c r2 hdw hc] at h
      by_cases hd1 : (cs.takeWhile Char.isDigit).isEmpty
      · rw [if_pos hd1] at h
        cases h
      · rw [if_neg hd1] at h
        obtain rfl := Option.some.inj h
        refine ⟨⟨cs.dropWhile Char.isDigit, List.takeWhile_append_dropWhile _ _⟩, ?_⟩
        rw [numBody_iff]
        exact Or.inl ⟨by simpa using hd1, List.all_takeWhile⟩

/-- The token produced by `extractBody` is at least as long as the
leading digit run. -/
theorem extractBody_d1_le (cs b : List Char) (h : extractBody cs = some b) :
    (cs.takeWhile Char.isDigit).length ≤ b.length := by
  rcases hdw : cs.dropWhile Char.isDigit with _ | ⟨c, r2⟩
  · rw [extractBody_eq_nil cs hdw] at h
    by_cases hd1 : (cs.takeWhile Char.isDigit).isEmpty
    · rw [if_pos hd1] at h
      cases h
    · rw [if_neg hd1] at h
      obtain rfl := Option.some.inj h
      exact Nat.le_refl _
  · by_cases hc : c = '.'
    · subst hc
      rw [extractBody_eq_dot cs r2 hdw] at h
      by_cases hd2 : (r2.takeWhile Char.isDigit).isEmpty
      · rw [if_pos hd2] at h
        by_cases hd1 : (cs.takeWhile Char.isDigit).isEmpty
        · rw [if_pos hd1] at h
          cases h
        · rw [if_neg hd1] at h
          obtain rfl := Option.some.inj h
          exact Nat.le_refl _
      · rw [if_neg hd2] at h
        obtain rfl := Option.some.inj h
        simp only [List.length_append, List.length_cons]
        omega
    · rw [extractBody_eq_other cs c r2 hdw hc] at h
      by_cases hd1 : (cs.takeWhile Char.isDigit).isEmpty
      · rw [if_pos hd1] at h
        cases h
      · rw [if_neg hd1] at h
        obtain rfl := Option.some.inj h
        exact Nat.le_refl _

/-- A digit word placed in front of anything bounds the digit run of
the concatenation from below. -/
theorem f2_le_length_takeWhile (f2 rest : List Char)
    (hf2 : f2.all Char.isDigit = true) :
    f2.length ≤ ((f2 ++ rest).takeWhile Char.isDigit).length := by
  apply take_all_le_length_takeWhile Char.isDigit (f2 ++ rest) f2.length
  · simp
  · rw [List.take_left]
    exact hf2

/-- Any prefix of `cs` in the body language is either a nonempty digit
run bounded by `takeWhile`, or splits as the FULL leading digit run, a
dot, and a nonempty digit word. -/
theorem numBody_take_split (cs : List Char) (n : Nat) (hn : n ≤ cs.length)
    (h : numBody (cs.take n) = true) :
    (1 ≤ n ∧ n ≤ (cs.takeWhile Char.isDigit).length) ∨
    (∃ f2, cs.take n = cs.takeWhile Char.isDigit ++ '.' :: f2 ∧
      f2 ≠ [] ∧ f2.all Char.isDigit = true ∧
      n = (cs.takeWhile Char.isDigit).length + 1 + f2.length) := by
  rcases (numBody_iff _).mp h with ⟨hne, hall⟩ | ⟨e1, f2, hsplit, he1, hf2ne, hf2⟩
  · left
    constructor
    · rcases n with _ | m
      · exact absurd rfl hne
      · omega
    · exact take_all_le_length_takeWhile _ _ n hn hall
  · right
    have hlen_take : (cs.take n).length = n := List.length_take_of_le hn
    have hn_eq : n = e1.length + 1 + f2.length := by
      rw [← hlen_take, hsplit]
      simp only [List.length_append, List.length_cons]
      omega
    have he1n : e1.length ≤ n := by omega
    have htk : cs.take e1.length = e1 := by
      have h1 : (cs.take n).take e1.length = e1 := by
        rw [hsplit]
        exact List.take_left _ _
      rw [List.take_take, Nat.min_eq_left he1n] at h1
      exact h1
    have hle1 : e1.length ≤ (cs.takeWhile Char.isDigit).length := by
      apply take_all_le_length_takeWhile Char.isDigit cs e1.length (le_trans he1n hn)
      rw [htk]
      exact he1
    have hge1 : (cs.takeWhile Char.isDigit).length ≤ e1.length := by
      by_contra hlt
      push_neg at hlt
      have hall2 : (cs.take (e1.length + 1)).all Char.isDigit = true :=
        all_take_of_le_length_takeWhile _ _ _ (by omega)
      have htake : cs.take (e1.length + 1) = e1 ++ ['.'] := by
        have h2 : (cs.take n).take (e1.length + 1) = e1 ++ ['.'] := by
          rw [hsplit, List.take_append_eq_append_take,
            List.take_of_length_le (by omega)]
          have h3 : e1.length + 1 - e1.length = 1 := by omega
          rw [h3]
          rfl
        rw [List.take_take, Nat.min_eq_left (by omega)] at h2
        exact h2
      rw [htake] at hall2
      simp only [List.all_append, List.all_cons, List.all_nil, Bool.and_eq_true] at hall2
      exact absurd hall2.2.1 (by decide)
    have heq_len : e1.length = (cs.takeWhile Char.isDigit).length :=
      Nat.le_antisymm hle1 hge1
    have he1d1 : e1 = cs.takeWhile Char.isDigit := by
      rw [takeWhile_eq_take_length Char.isDigit cs, ← heq_len]
      exact htk.symm
    refine ⟨f2, by rw [← he1d1]; exact hsplit, hf2ne, hf2, by omega⟩

/-- When a prefix of `cs` has the dotted shape, the whole first
non-digit block of `cs` starts with that dot. -/
theorem dropWhile_eq_dot_of_take_split (cs : List Char) (n : Nat) (f2 : List Char)
    (hsplit : cs.take n = cs.takeWhile Char.isDigit ++ '.' :: f2) :
    cs.dropWhile Char.isDigit = '.' :: (f2 ++ cs.drop n) := by
  have hcs : cs = cs.takeWhile Char.isDigit ++ '.' :: (f2 ++ cs.drop n) := by
    conv_lhs => rw [← List.take_append_drop n cs]
    rw [hsplit, List.append_assoc, List.cons_append]
  conv_lhs => rw [hcs]
  rw [List.dropWhile_append_of_pos (by
    intro a ha
    exact List.all_eq_true.mp List.all_takeWhile a ha)]
  rw [List.dropWhile_cons, if_neg (by decide)]

/-- Maximality of the greedy body match: no prefix of `cs` in the body
language is longer than the extracted token. -/
theorem extractBody_maximal (cs b : List Char) (h : extractBody cs = some b) :
    ∀ n, n ≤ cs.length → numBody (cs.take n) = true → n ≤ b.length := by
  intro n hn htok
  rcases numBody_take_split cs n hn htok with ⟨_, h2⟩ | ⟨f2, hsplit, hf2ne, hf2, hlen⟩
  · exact le_trans h2 (extractBody_d1_le cs b h)
  · have hdw : cs.dropWhile Char.isDigit = '.' :: (f2 ++ cs.drop n) :=
      dropWhile_eq_dot_of_take_split cs n f2 hsplit
    have hf2d2 : f2.length ≤ (((f2 ++ cs.drop n)).takeWhile Char.isDigit).length :=
      f2_le_length_takeWhile f2 (cs.drop n) hf2
    have hd2ne : ¬ (((f2 ++ cs.drop n)).takeWhile Char.isDigit).isEmpty = true := by
      intro hcon
      rw [List.isEmpty_eq_true] at hcon
      rw [hcon] at hf2d2
      simp only [List.length_nil, Nat.le_zero, List.length_eq_zero] at hf2d2
      exact hf2ne hf2d2
    rw [extractBody_eq_dot cs _ hdw, if_neg hd2ne] at h
    obtain rfl := Option.some.inj h
    simp only [List.length_append, List.length_cons]
    omega

/-- When the greedy body match fails, no prefix of `cs` is in the body
language at all. -/
theorem extractBody_none_no_match (cs : List Char) (h : extractBody cs = none) :
    ∀ n, n ≤ cs.length → numBody (cs.take n) = false := by
  intro n hn
  cases hbv : numBody (cs.take n) with
  | false => rfl
  | true =>
    exfalso
    rcases numBody_take_split cs n hn hbv with ⟨h1, h2⟩ | ⟨f2, hsplit, hf2ne, hf2, _⟩
    · have hd1 : cs.takeWhile Char.isDigit = [] := by
        rcases hdw : cs.dropWhile Char.isDigit with _ | ⟨c, r2⟩
        · rw [extractBody_eq_nil cs hdw] at h
          by_cases hd1e : (cs.takeWhile Char.isDigit).isEmpty
          · rwa [List.isEmpty_eq_true] at hd1e
          · rw [if_neg hd1e] at h
            cases h
        · by_cases hc : c = '.'
          · subst hc
            rw [extractBody_eq_dot cs r2 hdw] at h
            by_cases hd2e : (r2.takeWhile Char.isDigit).isEmpty
            · rw [if_pos hd2e] at h
              by_cases hd1e : (cs.takeWhile Char.isDigit).isEmpty
              · rwa [List.isEmpty_eq_true] at hd1e
              · rw [if_neg hd1e] at h
                cases h
            · rw [if_neg hd2e] at h
              cases h
          · rw [extractBody_eq_other cs c r2 hdw hc] at h
            by_cases hd1e : (cs.takeWhile Char.isDigit).isEmpty
            · rwa [List.isEmpty_eq_true] at hd1e
            · rw [if_neg hd1e] at h
              cases h
      rw [hd1] at h2
      simp only [List.length_nil, Nat.le_zero] at h2
      omega
    · have hdw : cs.dropWhile Char.isDigit = '.' :: (f2 ++ cs.drop n) :=
        dropWhile_eq_dot_of_take_split cs n f2 hsplit
      have hf2d2 : f2.length ≤ (((f2 ++ cs.drop n)).takeWhile Char.isDigit).length :=
        f2_le_length_takeWhile f2 (cs.drop n) hf2
      have hd2ne : ¬ (((f2 ++ cs.drop n)).takeWhile Char.isDigit).isEmpty = true := by
        intro hcon
        rw [List.isEmpty_eq_true] at hcon
        rw [hcon] at hf2d2
        simp only [List.length_nil, Nat.le_zero, List.length_eq_zero] at hf2d2
        exact hf2ne hf2d2
      rw [extractBody_eq_dot cs _ hdw, if_neg hd2ne] at h
      cases h

/-- Unfolding equation of `numTok` on a nonempty word. -/
theorem numTok_cons (c : Char) (l : List Char) :
    numTok (c :: l) = if isSign c then numBody l else numBody (c :: l) := rfl

/-- The token produced by `extractNum` is a prefix of the input and a
word of the full regex language. -/
theorem extractNum_sound (cs t : List Char) (h : extractNum cs = some t) :
    (∃ r, t ++ r = cs) ∧ numTok t = true := by
  cases cs with
  | nil => cases h
  | cons c rest =>
    by_cases hs : isSign c = true
    · have h' : (extractBody rest).map (fun b => c :: b) = some t := by
        simpa [extractNum, hs] using h
      cases hb : extractBody rest with
      | none =>
        rw [hb] at h'
        cases h'
      | some b =>
        rw [hb] at h'
        obtain rfl := Option.some.inj h'
        obtain ⟨⟨r, hr⟩, hnb⟩ := extractBody_sound rest b hb
        refine ⟨⟨r, ?_⟩, ?_⟩
        · rw [List.cons_append, hr]
        · rw [numTok_cons, if_pos hs]
          exact hnb
    · have hs' : isSign c = false := by
        revert hs
        cases isSign c <;> simp
      have h' : extractBody (c :: rest) = some t := by
        simpa [extractNum, hs'] using h
      obtain ⟨⟨r, hr⟩, hnb⟩ := extractBody_sound _ _ h'
      refine ⟨⟨r, hr⟩, ?_⟩
      cases t with
      | nil => exact absurd hnb (by decide)
      | cons t0 t1 =>
        have ht0 : t0 = c := by
          rw [List.cons_append] at hr
          injection hr with h1 h2
          try exact h1
        subst ht0
        rw [numTok_cons, if_neg hs]
        exact hnb

/-- When the greedy match fails, no prefix of the input is a word of
the regex language. -/
theorem extractNum_none (cs : List Char) (h : extractNum cs = none) :
    ∀ n, n ≤ cs.length → numTok (cs.take n) = false := by
  intro n hn
  cases cs with
  | nil =>
    simp only [List.take_nil]
    rfl
  | cons c rest =>
    by_cases hs : isSign c = true
    · have hb : extractBody rest = none := by
        cases hbe : extractBody rest with
        | none => rfl
        | some b =>
          exfalso
          have hcon : extractNum (c :: rest) = some (c :: b) := by
            simp [extractNum, hs, hbe]
          rw [hcon] at h
          cases h
      cases n with
      | zero => rfl
      | succ m =>
        rw [List.take_succ_cons, numTok_cons, if_pos hs]
        exact extractBody_none_no_match rest hb m (by simpa using hn)
    · have hs' : isSign c = false := by
        revert hs
        cases isSign c <;> simp
      have h' : extractBody (c :: rest) = none := by
        simpa [extractNum, hs'] using h
      cases n with
      | zero => rfl
      | succ m =>
        rw [List.take_succ_cons, numTok_cons, if_neg hs, ← List.take_succ_cons]
        exact extractBody_none_no_match _ h' (m + 1) hn

/-- Maximality of the greedy match: no prefix of the input in the regex
language is longer than the extracted token. -/
theorem extractNum_maximal (cs t : List Char) (h : extractNum cs = some t) :
    ∀ n, n ≤ cs.length → numTok (cs.take n) = true → n ≤ t.length := by
  intro n hn htok
  cases cs with
  | nil => cases h
  | cons c rest =>
    by_cases hs : isSign c = true
    · cases hb : extractBody rest with
      | none =>
        exfalso
        have hcon : extractNum (c :: rest) = none := by
          simp [extractNum, hs, hb]
        rw [hcon] at h
        cases h
      | some b =>
        have hcon : extractNum (c :: rest) = some (c :: b) := by
          simp [extractNum, hs, hb]
        rw [hcon] at h
        obtain rfl := Option.some.inj h
        cases n with
        | zero => exact Nat.zero_le _
        | succ m =>
          rw [List.take_succ_cons, numTok_cons, if_pos hs] at htok
          have := extractBody_maximal rest b hb m (by simpa using hn) htok
          simp only [List.length_cons]
          omega
    · have hs' : isSign c = false := by
        revert hs
        cases isSign c <;> simp
      have h' : extractBody (c :: rest) = some t := by
        simpa [extractNum, hs'] using h
      cases n with
      | zero => exact Nat.zero_le _
      | succ m =>
        rw [List.take_succ_cons, numTok_cons, if_neg hs, ← List.take_succ_cons] at htok
        exact extractBody_maximal _ _ h' (m + 1) hn htok

/-! ### Claim C1: the measurement parser -/

/-- Claim C1: `parse_measurement` returns `none` on `None` input and on
input whose stripped text is empty; otherwise it returns the (here
exact-rational) float conversion of the longest leading substring of
the stripped text that matches the regex `[-+]?\d*\.?\d+` — trailing
text such as a unit suffix is discarded — and `none` when no prefix
matches at all (conversion of a matched group never fails). The spec
examples evaluate as stated. -/
theorem parse_measurement_spec :
    parse_measurement .vnone = none ∧
    (∀ s : String, pyStrip s.data = [] → parse_measurement (.vstr s) = none) ∧
    (∀ s : String, extractNum (pyStrip s.data) = none →
      parse_measurement (.vstr s) = none ∧
      ∀ n, n ≤ (pyStrip s.data).length → numTok ((pyStrip s.data).take n) = false) ∧
    (∀ (s : String) (t : List Char), extractNum (pyStrip s.data) = some t →
      parse_measurement (.vstr s) = some (tokenToRat t) ∧
      numTok t = true ∧
      (∃ r, t ++ r = pyStrip s.data) ∧
      (∀ n, n ≤ (pyStrip s.data).length →
        numTok ((pyStrip s.data).take n) = true → n ≤ t.length)) ∧
    parse_measurement (.vstr "18.4 °C") = some (18.4 : ℚ) ∧
    parse_measurement (.vstr "65 %") = some (65 : ℚ) ∧
    parse_measurement (.vstr "") = none ∧
    parse_measurement (.vstr "-3.2") = some (-3.2 : ℚ) ∧
    parse_measurement (.vstr "abc") = none ∧
    parse_measurement (.vint 42) = some (42 : ℚ) := by
  refine ⟨rfl, ?_, ?_, ?_, ?_, by decide, by decide, ?_, by decide, by decide⟩
  · intro s hstrip
    simp [parse_measurement, rawToChars, hstrip]
  · intro s hnone
    constructor
    · by_cases he : (pyStrip s.data).isEmpty <;>
        simp [parse_measurement, rawToChars, he, hnone]
    · exact extractNum_none _ hnone
  · intro s t hsome
    have hne : ¬ (pyStrip s.data).isEmpty = true := by
      intro hcon
      rw [List.isEmpty_eq_true] at hcon
      rw [hcon] at hsome
      cases hsome
    refine ⟨?_, (extractNum_sound _ _ hsome).2, (extractNum_sound _ _ hsome).1,
      extractNum_maximal _ _ hsome⟩
    simp [parse_measurement, rawToChars, hne, hsome]
  · have h : (18.4 : ℚ) = mkRat 184 10 := by norm_num [Rat.mkRat_eq_div]
    rw [h]
    decide
  · have h : (-3.2 : ℚ) = mkRat (-32) 10 := by norm_num [Rat.mkRat_eq_div]
    rw [h]
    decide

/-- Witness for C1 at a concrete input: a whitespace-only string strips
to the empty string and parses to `none`. -/
theorem parse_measurement_spec_witness :
    parse_measurement (RawValue.vstr "  ") = none :=
  parse_measurement_spec.2.1 "  " (by decide)

end HomekitLogger
